import Mathlib

/-!
# Verification of the sports-prediction backtesting engine

A shallow embedding of `src/python/backtesting/backtest_engine.py` (class
`BacktestEngine`) and proofs about it.  Numeric float arithmetic is modelled
exactly over `ℚ` (and `ℝ` where the code takes square roots or real powers);
timestamps are modelled as integer day indices, so a pandas timedelta's
`.days` between two timestamps is their difference.  Pandas data frames are
modelled as lists of typed rows; the open-position dict (insertion-ordered,
unique keys) is an association list with in-place overwrite.
-/

/-- `BacktestConfig` dataclass: the per-run constants. -/
structure BacktestConfig where
  starting_capital : ℚ
  max_position_size_pct : ℚ
  daily_drawdown_limit_pct : ℚ
  min_liquidity : ℚ
  slippage_pct : ℚ
  gas_cost_per_trade : ℚ
  execution_latency_ms : ℤ
  kelly_fraction : ℚ
deriving Repr, DecidableEq

/-- The dataclass defaults of `BacktestConfig`. -/
def defaultConfig : BacktestConfig :=
  { starting_capital := 50000
    max_position_size_pct := 2
    daily_drawdown_limit_pct := 8
    min_liquidity := 2000
    slippage_pct := 2/100
    gas_cost_per_trade := 15/100
    execution_latency_ms := 500
    kelly_fraction := 1/2 }

/-- One row of the `historical_data` frame:
`[timestamp, market_id, yes_price, no_price, liquidity, resolution]`.
`resolution = none` models an absent/NaN resolution (`pd.notna` false). -/
structure MarketRow where
  timestamp : ℤ
  market_id : String
  yes_price : ℚ
  no_price : ℚ
  liquidity : ℚ
  resolution : Option String
deriving Repr, DecidableEq

/-- One row of the `strategy_signals` frame:
`[timestamp, market_id, signal_type, confidence, edge_size, entry_price,
fair_value, strategy]`.  The engine additionally reads
`signal.get('liquidity', 0)`, so an optional `liquidity` column is carried;
`none` models the column being absent for this row. -/
structure Signal where
  timestamp : ℤ
  market_id : String
  signal_type : String
  confidence : ℚ
  edge_size : ℚ
  entry_price : ℚ
  fair_value : ℚ
  strategy : String
  liquidity : Option ℚ
deriving Repr, DecidableEq

/-- The open-position dict built by `_enter_position` (lines 209-218). -/
structure Position where
  entry_time : ℤ
  market_id : String
  strategy : String
  position : String
  entry_price : ℚ
  quantity : ℚ
  cost_basis : ℚ
  slippage : ℚ
deriving Repr, DecidableEq

/-- The `Trade` dataclass: a closed trade record. -/
structure Trade where
  entry_time : ℤ
  exit_time : ℤ
  market_id : String
  strategy : String
  position : String
  entry_price : ℚ
  exit_price : ℚ
  quantity : ℚ
  pnl : ℚ
  pnl_pct : ℚ
  gas_cost : ℚ
  slippage : ℚ
deriving Repr, DecidableEq

/-- One entry of `portfolio_value_history` (lines 151-157). -/
structure PortfolioSnapshot where
  timestamp : ℤ
  portfolio_value : ℚ
  capital : ℚ
  unrealized_pnl : ℚ
  open_positions : ℕ
deriving Repr, DecidableEq

/-- The run-scoped mutable state of `BacktestEngine` plus the local
`open_positions` dict of `run_backtest`. -/
structure SimState where
  capital : ℚ
  openPositions : List (String × Position)
  trades : List Trade
  history : List PortfolioSnapshot
deriving Repr, DecidableEq

/-- `_calculate_kelly` (lines 287-302).  `edge` is accepted and unused,
exactly as in the source. -/
def calculate_kelly (edge win_prob : ℚ) : ℚ :=
  if win_prob ≤ 0 ∨ 1 ≤ win_prob then 0
  else
    let odds := 1 / win_prob
    let b := odds - 1
    let q := 1 - win_prob
    if b ≤ 0 then 0
    else max 0 (min (1/4) ((b * win_prob - q) / b))

/-- `_can_enter_trade` (lines 169-180): liquidity floor then capital floor. -/
def can_enter_trade (cfg : BacktestConfig) (capital : ℚ) (signal : Signal) : Bool :=
  if (signal.liquidity.getD 0) < cfg.min_liquidity then false
  else if capital * (cfg.max_position_size_pct / 100) < 100 then false
  else true

/-- The position dict literal built at the end of `_enter_position`
(lines 200-218), given the already-computed `position_size`. -/
def mkPosition (cfg : BacktestConfig) (signal : Signal) (timestamp : ℤ)
    (position_size : ℚ) : Position :=
  let entry_price := signal.entry_price
  let slippage := entry_price * cfg.slippage_pct
  let actual_entry := entry_price + slippage
  let quantity := position_size / actual_entry
  { entry_time := timestamp
    market_id := signal.market_id
    strategy := signal.strategy
    position := signal.signal_type
    entry_price := actual_entry
    quantity := quantity
    cost_basis := position_size
    slippage := slippage }

/-- `_enter_position` (lines 182-218): Kelly sizing, the $100 notional
floor, and the position record. -/
def enter_position (cfg : BacktestConfig) (capital : ℚ) (signal : Signal)
    (timestamp : ℤ) : Option Position :=
  let kelly := calculate_kelly signal.edge_size signal.fair_value
  let kelly_position := capital * kelly * cfg.kelly_fraction
  let max_position := capital * (cfg.max_position_size_pct / 100)
  let position_size := min kelly_position max_position
  if position_size < 100 then none
  else some (mkPosition cfg signal timestamp position_size)

/-- The entry pipeline of the driver loop (lines 117-121): the
`_can_enter_trade` gate followed by `_enter_position`. -/
def tryEnter (cfg : BacktestConfig) (capital : ℚ) (signal : Signal)
    (timestamp : ℤ) : Option Position :=
  if can_enter_trade cfg capital signal then enter_position cfg capital signal timestamp
  else none

/-- `_close_position` (lines 220-264): returns the updated capital together
with the `Trade` record. -/
def close_position (cfg : BacktestConfig) (capital : ℚ) (position : Position)
    (resolution : String) (exit_time : ℤ) : ℚ × Trade :=
  let exit_price : ℚ :=
    if resolution = "yes" then 1
    else if resolution = "no" then 0
    else position.entry_price
  let exit_slippage := exit_price * cfg.slippage_pct
  let actual_exit := max 0 (exit_price - exit_slippage)
  let proceeds := position.quantity * actual_exit
  let cost := position.cost_basis
  let gross_pnl := proceeds - cost
  let net_pnl := gross_pnl - cfg.gas_cost_per_trade
  let pnl_pct := if 0 < cost then net_pnl / cost * 100 else 0
  (capital + net_pnl,
    { entry_time := position.entry_time
      exit_time := exit_time
      market_id := position.market_id
      strategy := position.strategy
      position := position.position
      entry_price := position.entry_price
      exit_price := actual_exit
      quantity := position.quantity
      pnl := net_pnl
      pnl_pct := pnl_pct
      gas_cost := cfg.gas_cost_per_trade
      slippage := position.slippage + exit_slippage })

/-- `_calculate_unrealized_pnl` (lines 266-285): mark the position to the
`yes_price` of the first market row matching its market id and the
timestamp; 0 when no row matches. -/
def calculate_unrealized_pnl (position : Position) (market_data : List MarketRow)
    (timestamp : ℤ) : ℚ :=
  match market_data.find? (fun r =>
      r.market_id == position.market_id && r.timestamp == timestamp) with
  | none => 0
  | some row => position.quantity * row.yes_price - position.cost_basis

/-- Python-dict assignment `open_positions[k] = v`: overwrite in place if
the key is present, else append. -/
def upsert (m : List (String × Position)) (k : String) (v : Position) :
    List (String × Position) :=
  match m with
  | [] => [(k, v)]
  | kv :: rest => if kv.1 = k then (k, v) :: rest else kv :: upsert rest k v

/-- Python-dict deletion `del open_positions[k]` (keys are unique). -/
def eraseKey (m : List (String × Position)) (k : String) :
    List (String × Position) :=
  match m with
  | [] => []
  | kv :: rest => if kv.1 = k then rest else kv :: eraseKey rest k

/-- `sorted(historical_data['timestamp'].unique())` (line 109): the distinct
timestamps of the market table in ascending order. -/
def sortedUniqueTimestamps (rows : List MarketRow) : List ℤ :=
  ((rows.map (fun r => r.timestamp)).dedup).insertionSort (· ≤ ·)

/-- The inclusive date-range filter of lines 83-97, applied to a market
table; `none` models an absent bound. -/
def filterMarket (rows : List MarketRow) (start_date end_date : Option ℤ) :
    List MarketRow :=
  let rows₁ := match start_date with
    | none => rows
    | some sd => rows.filter (fun r => sd ≤ r.timestamp)
  match end_date with
  | none => rows₁
  | some ed => rows₁.filter (fun r => r.timestamp ≤ ed)

/-- The inclusive date-range filter of lines 83-97, applied to the signal
table. -/
def filterSignals (rows : List Signal) (start_date end_date : Option ℤ) :
    List Signal :=
  let rows₁ := match start_date with
    | none => rows
    | some sd => rows.filter (fun r => sd ≤ r.timestamp)
  match end_date with
  | none => rows₁
  | some ed => rows₁.filter (fun r => r.timestamp ≤ ed)

/-- Body of the entry loop (lines 116-121): try one signal against the
current state; an accepted entry is stored in the open-position dict under
its market id. -/
def entryStep (cfg : BacktestConfig) (timestamp : ℤ) (st : SimState)
    (signal : Signal) : SimState :=
  match tryEnter cfg st.capital signal timestamp with
  | some pos => { st with openPositions := upsert st.openPositions signal.market_id pos }
  | none => st

/-- Entry phase of the driver loop (lines 110-121): process, in order,
every signal whose timestamp is the current one. -/
def processSignals (cfg : BacktestConfig) (signals : List Signal)
    (timestamp : ℤ) (st : SimState) : SimState :=
  signals.foldl (entryStep cfg timestamp) st

/-- Update phase of the driver loop (lines 123-142): for each open position
(iterating a snapshot of the dict, as `list(open_positions.items())` does),
look up the first market row at this timestamp with its market id; if that
row carries a resolution, close the position, append the trade and delete
the dict entry. -/
def updateStep (cfg : BacktestConfig) (market_data : List MarketRow)
    (timestamp : ℤ) (st : SimState) (kv : String × Position) : SimState :=
  match market_data.find? (fun r => r.market_id == kv.1) with
  | none => st
  | some row =>
    match row.resolution with
    | none => st
    | some res =>
      let ct := close_position cfg st.capital kv.2 res timestamp
      { st with
          capital := ct.1
          trades := st.trades ++ [ct.2]
          openPositions := eraseKey st.openPositions kv.1 }

/-- The update phase folds `updateStep` over a snapshot of the dict items. -/
def updatePositions (cfg : BacktestConfig) (market_data : List MarketRow)
    (timestamp : ℤ) (st : SimState) : SimState :=
  st.openPositions.foldl (updateStep cfg market_data timestamp) st

/-- Snapshot phase of the driver loop (lines 144-157): one
`PortfolioSnapshot` appended per timestamp, with total value = capital plus
the summed unrealized pnl of the open positions. -/
def recordSnapshot (historical : List MarketRow) (timestamp : ℤ)
    (st : SimState) : SimState :=
  let unrealized :=
    (st.openPositions.map (fun kv =>
      calculate_unrealized_pnl kv.2 historical timestamp)).sum
  { st with
      history := st.history ++
        [{ timestamp := timestamp
           portfolio_value := st.capital + unrealized
           capital := st.capital
           unrealized_pnl := unrealized
           open_positions := st.openPositions.length }] }

/-- One iteration of the driver loop for a single timestamp. -/
def simStep (cfg : BacktestConfig) (historical : List MarketRow)
    (signals : List Signal) (st : SimState) (timestamp : ℤ) : SimState :=
  recordSnapshot historical timestamp
    (updatePositions cfg (historical.filter (fun r => r.timestamp == timestamp)) timestamp
      (processSignals cfg (signals.filter (fun s => s.timestamp == timestamp)) timestamp st))

/-- The reset state of lines 99-103. -/
def initState (cfg : BacktestConfig) : SimState :=
  { capital := cfg.starting_capital, openPositions := [], trades := [], history := [] }

/-- `run_backtest` (lines 60-167) up to and including the simulation loop:
date filtering, state reset, and the chronological fold over the distinct
timestamps of the (filtered) market table.  The returned `SimState` carries
the final capital, trades and portfolio history that the result bundle and
`_calculate_metrics` consume. -/
def run_backtest (cfg : BacktestConfig) (historical_data : List MarketRow)
    (strategy_signals : List Signal) (start_date end_date : Option ℤ) : SimState :=
  let hist := filterMarket historical_data start_date end_date
  let sigs := filterSignals strategy_signals start_date end_date
  (sortedUniqueTimestamps hist).foldl (simStep cfg hist sigs) (initState cfg)

/-! ## Helper lemmas -/

/-- With `odds = 1/p` the Kelly numerator `b·p − q` cancels identically, so
`_calculate_kelly` returns 0 on every input. -/
theorem kelly_eq_zero (edge win_prob : ℚ) : calculate_kelly edge win_prob = 0 := by
  simp only [calculate_kelly]
  split_ifs with h1 h2
  · rfl
  · rfl
  · push_neg at h1
    have hp : win_prob ≠ 0 := ne_of_gt h1.1
    have hnum : (1 / win_prob - 1) * win_prob - (1 - win_prob) = 0 := by
      field_simp
    rw [hnum, zero_div]
    norm_num

/-- `_enter_position` returns `None` on every input: the Kelly notional is
0, so `position_size = min 0 max_position < 100`. -/
theorem enter_position_eq_none (cfg : BacktestConfig) (capital : ℚ)
    (signal : Signal) (timestamp : ℤ) :
    enter_position cfg capital signal timestamp = none := by
  simp only [enter_position, kelly_eq_zero, mul_zero, zero_mul]
  rw [if_pos]
  exact lt_of_le_of_lt (min_le_left _ _) (by norm_num)

/-- The driver's entry pipeline never opens a position. -/
theorem tryEnter_eq_none (cfg : BacktestConfig) (capital : ℚ)
    (signal : Signal) (timestamp : ℤ) :
    tryEnter cfg capital signal timestamp = none := by
  unfold tryEnter
  split
  · exact enter_position_eq_none cfg capital signal timestamp
  · rfl

theorem entryStep_eq_id (cfg : BacktestConfig) (timestamp : ℤ)
    (st : SimState) (signal : Signal) :
    entryStep cfg timestamp st signal = st := by
  unfold entryStep
  rw [tryEnter_eq_none]

theorem processSignals_eq_id (cfg : BacktestConfig) (signals : List Signal)
    (timestamp : ℤ) (st : SimState) :
    processSignals cfg signals timestamp st = st := by
  unfold processSignals
  induction signals generalizing st with
  | nil => rfl
  | cons s rest ih => rw [List.foldl_cons, entryStep_eq_id]; exact ih st

theorem close_position_capital (cfg : BacktestConfig) (capital : ℚ)
    (position : Position) (resolution : String) (exit_time : ℤ) :
    (close_position cfg capital position resolution exit_time).1 =
      capital + (close_position cfg capital position resolution exit_time).2.pnl := rfl

theorem recordSnapshot_capital (historical : List MarketRow) (timestamp : ℤ)
    (st : SimState) : (recordSnapshot historical timestamp st).capital = st.capital := rfl

theorem recordSnapshot_trades (historical : List MarketRow) (timestamp : ℤ)
    (st : SimState) : (recordSnapshot historical timestamp st).trades = st.trades := rfl

theorem recordSnapshot_openPositions (historical : List MarketRow) (timestamp : ℤ)
    (st : SimState) :
    (recordSnapshot historical timestamp st).openPositions = st.openPositions := rfl

theorem simStep_degenerate (cfg : BacktestConfig) (historical : List MarketRow)
    (signals : List Signal) (st : SimState) (t : ℤ) (h : st.openPositions = []) :
    (simStep cfg historical signals st t).openPositions = [] ∧
    (simStep cfg historical signals st t).capital = st.capital ∧
    (simStep cfg historical signals st t).trades = st.trades := by
  unfold simStep
  rw [processSignals_eq_id]
  unfold updatePositions
  rw [h, List.foldl_nil, recordSnapshot_capital, recordSnapshot_trades,
    recordSnapshot_openPositions]
  exact ⟨h, rfl, rfl⟩

theorem foldl_simStep_degenerate (cfg : BacktestConfig) (historical : List MarketRow)
    (signals : List Signal) : ∀ (ts : List ℤ) (st : SimState),
    st.openPositions = [] →
    (ts.foldl (simStep cfg historical signals) st).openPositions = [] ∧
    (ts.foldl (simStep cfg historical signals) st).capital = st.capital ∧
    (ts.foldl (simStep cfg historical signals) st).trades = st.trades := by
  intro ts
  induction ts with
  | nil => intro st h; exact ⟨h, rfl, rfl⟩
  | cons t rest ih =>
    intro st h
    rw [List.foldl_cons]
    obtain ⟨h1, h2, h3⟩ := simStep_degenerate cfg historical signals st t h
    obtain ⟨g1, g2, g3⟩ := ih _ h1
    exact ⟨g1, by rw [g2, h2], by rw [g3, h3]⟩

theorem entryStep_capital (cfg : BacktestConfig) (t : ℤ) (st : SimState)
    (signal : Signal) : (entryStep cfg t st signal).capital = st.capital := by
  unfold entryStep
  cases tryEnter cfg st.capital signal t <;> rfl

theorem entryStep_trades (cfg : BacktestConfig) (t : ℤ) (st : SimState)
    (signal : Signal) : (entryStep cfg t st signal).trades = st.trades := by
  unfold entryStep
  cases tryEnter cfg st.capital signal t <;> rfl

/-- Each `updateStep` preserves `capital − Σ pnl`: a close adds the trade's
net pnl to capital and appends a trade carrying the same pnl. -/
theorem updateStep_conserve (cfg : BacktestConfig) (md : List MarketRow) (t : ℤ)
    (st : SimState) (kv : String × Position) :
    (updateStep cfg md t st kv).capital -
      (((updateStep cfg md t st kv).trades.map Trade.pnl).sum) =
    st.capital - ((st.trades.map Trade.pnl).sum) := by
  unfold updateStep
  split
  · rfl
  · split
    · rfl
    · simp only [List.map_append, List.sum_append, List.map_cons, List.map_nil,
        List.sum_cons, List.sum_nil, add_zero]
      rw [close_position_capital]
      ring

theorem foldl_updateStep_conserve (cfg : BacktestConfig) (md : List MarketRow)
    (t : ℤ) : ∀ (l : List (String × Position)) (st : SimState),
    (l.foldl (updateStep cfg md t) st).capital -
      (((l.foldl (updateStep cfg md t) st).trades.map Trade.pnl).sum) =
    st.capital - ((st.trades.map Trade.pnl).sum) := by
  intro l
  induction l with
  | nil => intro st; rfl
  | cons kv rest ih =>
    intro st
    rw [List.foldl_cons, ih, updateStep_conserve]

theorem processSignals_capital (cfg : BacktestConfig) (signals : List Signal)
    (t : ℤ) (st : SimState) :
    (processSignals cfg signals t st).capital = st.capital := by
  unfold processSignals
  induction signals generalizing st with
  | nil => rfl
  | cons s rest ih => rw [List.foldl_cons, ih, entryStep_capital]

theorem processSignals_trades (cfg : BacktestConfig) (signals : List Signal)
    (t : ℤ) (st : SimState) :
    (processSignals cfg signals t st).trades = st.trades := by
  unfold processSignals
  induction signals generalizing st with
  | nil => rfl
  | cons s rest ih => rw [List.foldl_cons, ih, entryStep_trades]

theorem simStep_conserve (cfg : BacktestConfig) (historical : List MarketRow)
    (signals : List Signal) (st : SimState) (t : ℤ) :
    (simStep cfg historical signals st t).capital -
      (((simStep cfg historical signals st t).trades.map Trade.pnl).sum) =
    st.capital - ((st.trades.map Trade.pnl).sum) := by
  unfold simStep updatePositions
  rw [recordSnapshot_capital, recordSnapshot_trades, foldl_updateStep_conserve,
    processSignals_capital, processSignals_trades]

theorem foldl_simStep_conserve (cfg : BacktestConfig) (historical : List MarketRow)
    (signals : List Signal) : ∀ (ts : List ℤ) (st : SimState),
    (ts.foldl (simStep cfg historical signals) st).capital -
      (((ts.foldl (simStep cfg historical signals) st).trades.map Trade.pnl).sum) =
    st.capital - ((st.trades.map Trade.pnl).sum) := by
  intro ts
  induction ts with
  | nil => intro st; rfl
  | cons t rest ih =>
    intro st
    rw [List.foldl_cons, ih, simStep_conserve]

/-! ## Claim theorems -/

/-- C1: with `odds = 1/p` the Kelly numerator `b·p − (1−p)` is identically
zero, so `_calculate_kelly` returns 0 for every win probability; hence for
every signal the target notional `capital × kelly × kelly_fraction` is 0,
`_enter_position` returns `None` on all inputs, and every run of
`run_backtest` ends with an empty trade list and final capital equal to
`starting_capital`. -/
theorem kelly_degenerate_run :
    (∀ edge win_prob : ℚ, calculate_kelly edge win_prob = 0) ∧
    (∀ (cfg : BacktestConfig) (capital : ℚ) (signal : Signal) (t : ℤ),
      capital * calculate_kelly signal.edge_size signal.fair_value *
        cfg.kelly_fraction = 0 ∧
      enter_position cfg capital signal t = none) ∧
    (∀ (cfg : BacktestConfig) (hist : List MarketRow) (sigs : List Signal)
      (sd ed : Option ℤ),
      (run_backtest cfg hist sigs sd ed).trades = [] ∧
      (run_backtest cfg hist sigs sd ed).capital = cfg.starting_capital) := by
  refine ⟨kelly_eq_zero, fun cfg capital signal t => ⟨?_, enter_position_eq_none cfg capital signal t⟩, ?_⟩
  · rw [kelly_eq_zero]; ring
  · intro cfg hist sigs sd ed
    simp only [run_backtest]
    obtain ⟨h1, h2, h3⟩ := foldl_simStep_degenerate cfg
      (filterMarket hist sd ed) (filterSignals sigs sd ed)
      (sortedUniqueTimestamps (filterMarket hist sd ed)) (initState cfg) rfl
    exact ⟨h3, h2⟩

/-- C2: capital conservation.  The final capital of every run equals
`starting_capital` plus the sum of `pnl` over the closed trades; moreover
the entry phase and the snapshot phase never change capital or the trade
list, and each update step preserves `capital − Σ pnl` (capital moves only
by the net pnl of the trade appended at a close). -/
theorem capital_conservation :
    (∀ (cfg : BacktestConfig) (hist : List MarketRow) (sigs : List Signal)
      (sd ed : Option ℤ),
      (run_backtest cfg hist sigs sd ed).capital =
        cfg.starting_capital +
          (((run_backtest cfg hist sigs sd ed).trades.map Trade.pnl).sum)) ∧
    (∀ (cfg : BacktestConfig) (sigs : List Signal) (t : ℤ) (st : SimState),
      (processSignals cfg sigs t st).capital = st.capital ∧
      (processSignals cfg sigs t st).trades = st.trades) ∧
    (∀ (hist : List MarketRow) (t : ℤ) (st : SimState),
      (recordSnapshot hist t st).capital = st.capital ∧
      (recordSnapshot hist t st).trades = st.trades) ∧
    (∀ (cfg : BacktestConfig) (md : List MarketRow) (t : ℤ) (st : SimState)
      (kv : String × Position),
      (updateStep cfg md t st kv).capital -
        (((updateStep cfg md t st kv).trades.map Trade.pnl).sum) =
      st.capital - ((st.trades.map Trade.pnl).sum)) := by
  refine ⟨?_, fun cfg sigs t st => ⟨processSignals_capital cfg sigs t st,
      processSignals_trades cfg sigs t st⟩,
    fun hist t st => ⟨rfl, rfl⟩, updateStep_conserve⟩
  intro cfg hist sigs sd ed
  have h := foldl_simStep_conserve cfg (filterMarket hist sd ed)
    (filterSignals sigs sd ed) (sortedUniqueTimestamps (filterMarket hist sd ed))
    (initState cfg)
  have e1 : (initState cfg).capital = cfg.starting_capital := rfl
  have e2 : (initState cfg).trades = [] := rfl
  rw [e1, e2] at h
  simp only [List.map_nil, List.sum_nil, sub_zero] at h
  simp only [run_backtest]
  linarith [h]

/-- C3: the Kelly fraction is exactly 0 when `p ≤ 0`, `p ≥ 1`, or the
implied `b = 1/p − 1` is `≤ 0`; otherwise it is `(b·p − (1−p))/b` clamped
to `[0, 1/4]`; in all cases it lies within `[0, 1/4]`. -/
theorem kelly_case_analysis (edge p : ℚ) :
    (p ≤ 0 ∨ 1 ≤ p ∨ 1 / p - 1 ≤ 0 → calculate_kelly edge p = 0) ∧
    (0 < p → p < 1 → 0 < 1 / p - 1 →
      calculate_kelly edge p =
        max 0 (min (1/4) (((1 / p - 1) * p - (1 - p)) / (1 / p - 1)))) ∧
    (0 ≤ calculate_kelly edge p ∧ calculate_kelly edge p ≤ 1/4) := by
  refine ⟨?_, ?_, ?_⟩
  · intro h
    by_cases h01 : p ≤ 0 ∨ 1 ≤ p
    · simp only [calculate_kelly]
      rw [if_pos h01]
    · have hb : 1 / p - 1 ≤ 0 := by
        rcases h with h | h | h
        · exact absurd (Or.inl h) h01
        · exact absurd (Or.inr h) h01
        · exact h
      simp only [calculate_kelly]
      rw [if_neg h01, if_pos hb]
  · intro h1 h2 hb
    have h01 : ¬(p ≤ 0 ∨ 1 ≤ p) := by push_neg; exact ⟨h1, h2⟩
    simp only [calculate_kelly]
    rw [if_neg h01, if_neg (not_le.mpr hb)]
  · rw [kelly_eq_zero]
    norm_num

/-- Witness for C3: the zero branch at `p = 2` and the clamped-formula
branch at `p = 1/2`, both at concrete inputs. -/
theorem kelly_case_analysis_witness :
    calculate_kelly 0 2 = 0 ∧
    calculate_kelly 0 (1/2) =
      max 0 (min (1/4)
        (((1 / (1/2 : ℚ) - 1) * (1/2) - (1 - 1/2)) / (1 / (1/2 : ℚ) - 1))) :=
  ⟨(kelly_case_analysis 0 2).1 (Or.inr (Or.inl (by norm_num))),
   (kelly_case_analysis 0 (1/2)).2.1 (by norm_num) (by norm_num) (by norm_num)⟩

/-- The §8 end-to-end signal: `fair_value = 0.6`, `entry_price = 0.5`,
`liquidity = 5000`, at timestamp 0. -/
def exampleSignal : Signal :=
  { timestamp := 0
    market_id := "m1"
    signal_type := "yes"
    confidence := 3/5
    edge_size := 1/10
    entry_price := 1/2
    fair_value := 3/5
    strategy := "value"
    liquidity := some 5000 }

/-- C5 counterexample: a position opened from a signal with entry price
0.5 under 2% slippage stores fill price 0.51; closing it with a non-yes/no
resolution uses that stored 0.51 as the exit reference, so the realized
exit price is 0.51 × 0.98 = 0.4998, not the 0.49 that the pre-slippage
entry price 0.5 would give. -/
theorem exit_reference_counterexample :
    (close_position defaultConfig 50000
        (mkPosition defaultConfig exampleSignal 0 1000) "invalid" 1).2.exit_price ≠
      max 0 (exampleSignal.entry_price -
        exampleSignal.entry_price * defaultConfig.slippage_pct) := by
  have h1 : (close_position defaultConfig 50000
      (mkPosition defaultConfig exampleSignal 0 1000) "invalid" 1).2.exit_price =
      max 0 ((51:ℚ)/100 - (51:ℚ)/100 * (2/100)) := by
    simp only [close_position, mkPosition, defaultConfig, exampleSignal]
    rw [if_neg (show ("invalid":String) ≠ "yes" from by decide),
      if_neg (show ("invalid":String) ≠ "no" from by decide)]
    norm_num
  rw [h1]
  simp only [exampleSignal, defaultConfig]
  rw [max_eq_right (by norm_num), max_eq_right (by norm_num)]
  norm_num

/-- C5 (amended): the pre-slippage exit reference is exactly 1.0 for
resolution `"yes"`, exactly 0.0 for `"no"`, and for any other resolution
the position's stored entry price — which `_enter_position` sets to the
post-slippage fill price `entry_price × (1 + slippage_pct)`, not the
original pre-slippage entry price; the realized exit price is
`max(0, ref − ref × slippage_pct)`. -/
theorem exit_reference_price (cfg : BacktestConfig) (capital : ℚ)
    (pos : Position) (t : ℤ) :
    ((close_position cfg capital pos "yes" t).2.exit_price =
      max 0 (1 - 1 * cfg.slippage_pct)) ∧
    ((close_position cfg capital pos "no" t).2.exit_price =
      max 0 (0 - 0 * cfg.slippage_pct)) ∧
    (∀ res : String, res ≠ "yes" → res ≠ "no" →
      (close_position cfg capital pos res t).2.exit_price =
        max 0 (pos.entry_price - pos.entry_price * cfg.slippage_pct)) ∧
    (∀ (signal : Signal) (ts : ℤ) (sz : ℚ),
      (mkPosition cfg signal ts sz).entry_price =
        signal.entry_price + signal.entry_price * cfg.slippage_pct) := by
  refine ⟨?_, ?_, ?_, fun signal ts sz => rfl⟩
  · simp [close_position]
  · simp [close_position]
  · intro res h1 h2
    simp only [close_position]
    rw [if_neg h1, if_neg h2]

/-- Witness for C5 (amended), at the concrete position of the
counterexample. -/
theorem exit_reference_price_witness :
    (close_position defaultConfig 50000
        (mkPosition defaultConfig exampleSignal 0 1000) "invalid" 1).2.exit_price =
      max 0 ((mkPosition defaultConfig exampleSignal 0 1000).entry_price -
        (mkPosition defaultConfig exampleSignal 0 1000).entry_price *
          defaultConfig.slippage_pct) :=
  (exit_reference_price defaultConfig 50000
    (mkPosition defaultConfig exampleSignal 0 1000) 1).2.2.1 "invalid"
    (by decide) (by decide)

/-- C6: a signal is rejected, by returning no position rather than an
error, whenever its liquidity (0 when absent) is below `min_liquidity`,
the capital-derived cap `capital × max_position_size_pct/100` is below
100, or the computed notional `min(capital × kelly × kelly_fraction, cap)`
is below 100; consequently an opened position always has
`cost_basis ≥ 100`. -/
theorem entry_rejection (cfg : BacktestConfig) (capital : ℚ) (signal : Signal)
    (t : ℤ) :
    ((signal.liquidity.getD 0 < cfg.min_liquidity ∨
      capital * (cfg.max_position_size_pct / 100) < 100 ∨
      min (capital * calculate_kelly signal.edge_size signal.fair_value *
            cfg.kelly_fraction)
          (capital * (cfg.max_position_size_pct / 100)) < 100) →
      tryEnter cfg capital signal t = none) ∧
    (∀ pos : Position, tryEnter cfg capital signal t = some pos →
      100 ≤ pos.cost_basis) := by
  constructor
  · intro h
    unfold tryEnter
    by_cases hg : can_enter_trade cfg capital signal = true
    · rw [if_pos hg]
      simp only [enter_position]
      unfold can_enter_trade at hg
      split_ifs at hg with ha hb
      rcases h with h | h | h
      · exact absurd h ha
      · exact absurd h hb
      · rw [if_pos h]
    · rw [if_neg hg]
  · intro pos h
    unfold tryEnter at h
    split at h
    · simp only [enter_position] at h
      split at h
      · exact absurd h (by simp)
      · rename_i hsz
        rw [Option.some_inj] at h
        have hc : pos.cost_basis =
            min (capital * calculate_kelly signal.edge_size signal.fair_value *
                cfg.kelly_fraction)
              (capital * (cfg.max_position_size_pct / 100)) := by
          rw [← h]
          rfl
        rw [hc]
        exact not_lt.mp hsz
    · exact absurd h (by simp)

/-- A signal row whose frame has no liquidity column:
`signal.get('liquidity', 0)` yields 0. -/
def noLiquiditySignal : Signal :=
  { timestamp := 0
    market_id := "m2"
    signal_type := "yes"
    confidence := 1/2
    edge_size := 1/10
    entry_price := 1/2
    fair_value := 3/5
    strategy := "value"
    liquidity := none }

/-- Witness for C6: with an absent liquidity field (treated as 0, below
the default min_liquidity 2000) the entry pipeline declines the signal. -/
theorem entry_rejection_witness :
    tryEnter defaultConfig 50000 noLiquiditySignal 0 = none :=
  (entry_rejection defaultConfig 50000 noLiquiditySignal 0).1 (Or.inl (by decide))

/-- C10: the unrealized pnl of an open position is
`quantity × yes_price − cost_basis` computed from the first matching
market row's `yes_price`, and it does not depend on the position's side at
all — a "no"-side position is marked to the yes price too. -/
theorem unrealized_marks_to_yes_price (pos : Position) (rows : List MarketRow)
    (t : ℤ) :
    (∀ row : MarketRow,
      rows.find? (fun r => r.market_id == pos.market_id && r.timestamp == t) =
        some row →
      calculate_unrealized_pnl pos rows t =
        pos.quantity * row.yes_price - pos.cost_basis) ∧
    (∀ side : String,
      calculate_unrealized_pnl { pos with position := side } rows t =
        calculate_unrealized_pnl pos rows t) := by
  constructor
  · intro row h
    simp only [calculate_unrealized_pnl, h]
  · intro side
    rfl

/-- A live (unresolved) market row for the example market at t = 0. -/
def exampleRow0 : MarketRow :=
  { timestamp := 0
    market_id := "m1"
    yes_price := 11/20
    no_price := 9/20
    liquidity := 5000
    resolution := none }

/-- Witness for C10 at a concrete matching row. -/
theorem unrealized_marks_to_yes_price_witness :
    calculate_unrealized_pnl (mkPosition defaultConfig exampleSignal 0 1000)
        [exampleRow0] 0 =
      (mkPosition defaultConfig exampleSignal 0 1000).quantity *
          exampleRow0.yes_price -
        (mkPosition defaultConfig exampleSignal 0 1000).cost_basis :=
  (unrealized_marks_to_yes_price (mkPosition defaultConfig exampleSignal 0 1000)
    [exampleRow0] 0).1 exampleRow0 (by rfl)

theorem entryStep_history (cfg : BacktestConfig) (t : ℤ) (st : SimState)
    (signal : Signal) : (entryStep cfg t st signal).history = st.history := by
  unfold entryStep
  cases tryEnter cfg st.capital signal t <;> rfl

theorem processSignals_history (cfg : BacktestConfig) (signals : List Signal)
    (t : ℤ) (st : SimState) :
    (processSignals cfg signals t st).history = st.history := by
  unfold processSignals
  induction signals generalizing st with
  | nil => rfl
  | cons s rest ih => rw [List.foldl_cons, ih, entryStep_history]

theorem updateStep_history (cfg : BacktestConfig) (md : List MarketRow) (t : ℤ)
    (st : SimState) (kv : String × Position) :
    (updateStep cfg md t st kv).history = st.history := by
  unfold updateStep
  split
  · rfl
  · split
    · rfl
    · rfl

theorem foldl_updateStep_history (cfg : BacktestConfig) (md : List MarketRow)
    (t : ℤ) : ∀ (l : List (String × Position)) (st : SimState),
    (l.foldl (updateStep cfg md t) st).history = st.history := by
  intro l
  induction l with
  | nil => intro st; rfl
  | cons kv rest ih => intro st; rw [List.foldl_cons, ih, updateStep_history]

theorem recordSnapshot_history_map (hist : List MarketRow) (t : ℤ)
    (st : SimState) :
    (recordSnapshot hist t st).history.map PortfolioSnapshot.timestamp =
      st.history.map PortfolioSnapshot.timestamp ++ [t] := by
  simp [recordSnapshot]

theorem simStep_pre_history (cfg : BacktestConfig) (hist : List MarketRow)
    (sigs : List Signal) (st : SimState) (t : ℤ) :
    (updatePositions cfg (hist.filter (fun r => r.timestamp == t)) t
      (processSignals cfg (sigs.filter (fun s => s.timestamp == t)) t st)).history =
      st.history := by
  unfold updatePositions
  rw [foldl_updateStep_history, processSignals_history]

theorem simStep_history_map (cfg : BacktestConfig) (hist : List MarketRow)
    (sigs : List Signal) (st : SimState) (t : ℤ) :
    (simStep cfg hist sigs st t).history.map PortfolioSnapshot.timestamp =
      st.history.map PortfolioSnapshot.timestamp ++ [t] := by
  unfold simStep
  rw [recordSnapshot_history_map, simStep_pre_history]

theorem foldl_simStep_history_map (cfg : BacktestConfig) (hist : List MarketRow)
    (sigs : List Signal) : ∀ (ts : List ℤ) (st : SimState),
    (ts.foldl (simStep cfg hist sigs) st).history.map PortfolioSnapshot.timestamp =
      st.history.map PortfolioSnapshot.timestamp ++ ts := by
  intro ts
  induction ts with
  | nil => intro st; simp
  | cons t rest ih =>
    intro st
    rw [List.foldl_cons, ih, simStep_history_map, List.append_assoc,
      List.singleton_append]

theorem mem_recordSnapshot_history (hist : List MarketRow) (t : ℤ)
    (st : SimState) (snap : PortfolioSnapshot)
    (hmem : snap ∈ (recordSnapshot hist t st).history) :
    snap ∈ st.history ∨
      snap.portfolio_value = snap.capital + snap.unrealized_pnl := by
  unfold recordSnapshot at hmem
  simp only [List.mem_append, List.mem_singleton] at hmem
  rcases hmem with hmem | rfl
  · exact Or.inl hmem
  · exact Or.inr rfl

theorem simStep_pv_invariant (cfg : BacktestConfig) (hist : List MarketRow)
    (sigs : List Signal) (st : SimState) (t : ℤ)
    (h : ∀ snap ∈ st.history,
      snap.portfolio_value = snap.capital + snap.unrealized_pnl) :
    ∀ snap ∈ (simStep cfg hist sigs st t).history,
      snap.portfolio_value = snap.capital + snap.unrealized_pnl := by
  intro snap hmem
  unfold simStep at hmem
  rcases mem_recordSnapshot_history _ _ _ _ hmem with hin | heq
  · rw [simStep_pre_history] at hin
    exact h snap hin
  · exact heq

theorem foldl_simStep_pv_invariant (cfg : BacktestConfig) (hist : List MarketRow)
    (sigs : List Signal) : ∀ (ts : List ℤ) (st : SimState),
    (∀ snap ∈ st.history,
      snap.portfolio_value = snap.capital + snap.unrealized_pnl) →
    ∀ snap ∈ (ts.foldl (simStep cfg hist sigs) st).history,
      snap.portfolio_value = snap.capital + snap.unrealized_pnl := by
  intro ts
  induction ts with
  | nil => intro st h; exact h
  | cons t rest ih =>
    intro st h
    rw [List.foldl_cons]
    exact ih _ (simStep_pv_invariant cfg hist sigs st t h)

theorem sortedUniqueTimestamps_sorted (rows : List MarketRow) :
    (sortedUniqueTimestamps rows).Sorted (· ≤ ·) :=
  List.sorted_insertionSort _ _

theorem sortedUniqueTimestamps_nodup (rows : List MarketRow) :
    (sortedUniqueTimestamps rows).Nodup :=
  ((List.perm_insertionSort _ _).nodup_iff).mpr (List.nodup_dedup _)

theorem mem_sortedUniqueTimestamps (rows : List MarketRow) (t : ℤ) :
    t ∈ sortedUniqueTimestamps rows ↔
      t ∈ rows.map (fun r => r.timestamp) := by
  unfold sortedUniqueTimestamps
  rw [List.mem_insertionSort, List.mem_dedup]

/-- C7: every run appends exactly one snapshot per distinct timestamp of
the (date-filtered) market table, in ascending order and independent of
trading activity; each snapshot records total value = capital + summed
unrealized pnl; and a position with no matching market row contributes 0
unrealized pnl. -/
theorem snapshot_guarantees (cfg : BacktestConfig) (hist : List MarketRow)
    (sigs : List Signal) (sd ed : Option ℤ) :
    ((run_backtest cfg hist sigs sd ed).history.map PortfolioSnapshot.timestamp =
      sortedUniqueTimestamps (filterMarket hist sd ed)) ∧
    ((sortedUniqueTimestamps (filterMarket hist sd ed)).Sorted (· ≤ ·)) ∧
    ((sortedUniqueTimestamps (filterMarket hist sd ed)).Nodup) ∧
    (∀ t : ℤ, t ∈ sortedUniqueTimestamps (filterMarket hist sd ed) ↔
      t ∈ (filterMarket hist sd ed).map (fun r => r.timestamp)) ∧
    (∀ snap ∈ (run_backtest cfg hist sigs sd ed).history,
      snap.portfolio_value = snap.capital + snap.unrealized_pnl) ∧
    (∀ (pos : Position) (rows : List MarketRow) (t : ℤ),
      rows.find? (fun r => r.market_id == pos.market_id && r.timestamp == t) =
        none →
      calculate_unrealized_pnl pos rows t = 0) := by
  refine ⟨?_, sortedUniqueTimestamps_sorted _, sortedUniqueTimestamps_nodup _,
    mem_sortedUniqueTimestamps _, ?_, ?_⟩
  · simp only [run_backtest]
    rw [foldl_simStep_history_map]
    rfl
  · simp only [run_backtest]
    exact foldl_simStep_pv_invariant cfg _ _ _ (initState cfg)
      (fun snap hmem => absurd hmem (List.not_mem_nil snap))
  · intro pos rows t h
    simp only [calculate_unrealized_pnl, h]

/-- Witness for C7: a one-row market table yields the single snapshot
timestamp list `[0]`, and a position with no market rows contributes 0. -/
theorem snapshot_guarantees_witness :
    ((run_backtest defaultConfig [exampleRow0] [] none none).history.map
        PortfolioSnapshot.timestamp =
      sortedUniqueTimestamps (filterMarket [exampleRow0] none none)) ∧
    calculate_unrealized_pnl (mkPosition defaultConfig exampleSignal 0 1000)
        [] 0 = 0 :=
  ⟨(snapshot_guarantees defaultConfig [exampleRow0] [] none none).1,
   (snapshot_guarantees defaultConfig [exampleRow0] [] none none).2.2.2.2.2
     (mkPosition defaultConfig exampleSignal 0 1000) [] 0 rfl⟩

/-! ## Metrics (`_calculate_metrics`, `_calculate_sharpe`,
`_calculate_sortino`, `_calculate_max_drawdown`) -/

/-- `np.mean` over an exact-rational series (`[] ↦ 0/0 = 0`). -/
def listMean (xs : List ℚ) : ℚ := xs.sum / xs.length

/-- Population variance, `np.std(xs)^2`. -/
def listVariance (xs : List ℚ) : ℚ :=
  ((xs.map (fun x => (x - listMean xs)^2)).sum) / xs.length

/-- `np.std`: the square root of the population variance. -/
noncomputable def listStd (xs : List ℚ) : ℝ := Real.sqrt ((listVariance xs : ℚ) : ℝ)

/-- `_calculate_sharpe` (lines 371-377): 0 for an empty series; the guard
tests `np.std(returns) > 0` while numerator/denominator use the excess
series, exactly as in the source. -/
noncomputable def calculate_sharpe (returns : List ℚ) (risk_free_rate : ℚ) : ℝ :=
  if returns = [] then 0
  else
    let excess_returns := returns.map (fun r => r - risk_free_rate / 252)
    if 0 < listStd returns then
      ((listMean excess_returns : ℚ) : ℝ) / listStd excess_returns * Real.sqrt 252
    else 0

/-- `_calculate_sortino` (lines 379-388): denominator is the standard
deviation of the negative excess returns only; 0 when there are none or
when that deviation is 0. -/
noncomputable def calculate_sortino (returns : List ℚ) (risk_free_rate : ℚ) : ℝ :=
  if returns = [] then 0
  else
    let excess_returns := returns.map (fun r => r - risk_free_rate / 252)
    let downside_returns := excess_returns.filter (fun x => x < 0)
    let downside_std : ℝ :=
      if downside_returns.length > 0 then listStd downside_returns else 0
    if 0 < downside_std then
      ((listMean excess_returns : ℚ) : ℝ) / downside_std * Real.sqrt 252
    else 0

/-- One iteration of the `_calculate_max_drawdown` loop (lines 399-404). -/
def drawdownStep (acc : ℚ × ℚ) (value : ℚ) : ℚ × ℚ :=
  let peak := if value > acc.1 then value else acc.1
  let dd := (peak - value) / peak
  (peak, if dd > acc.2 then dd else acc.2)

/-- `_calculate_max_drawdown` (lines 390-406). -/
def calculate_max_drawdown (history : List PortfolioSnapshot) : ℚ :=
  match history.map (fun h => h.portfolio_value) with
  | [] => 0
  | v :: vs => ((v :: vs).foldl drawdownStep (v, 0)).2

/-- Python's bankers rounding of a real: nearest integer, ties to even. -/
noncomputable def roundHalfEven (x : ℝ) : ℤ :=
  if x - Int.floor x < 1/2 then Int.floor x
  else if 1/2 < x - Int.floor x then Int.floor x + 1
  else if Int.floor x % 2 = 0 then Int.floor x else Int.floor x + 1

/-- `round(x, 2)`. -/
noncomputable def round2 (x : ℝ) : ℝ := ((roundHalfEven (x * 100) : ℤ) : ℝ) / 100

/-- The metrics map returned by `_calculate_metrics` on a non-empty trade
list (lines 352-369). -/
structure Metrics where
  total_trades : ℕ
  winning_trades : ℕ
  losing_trades : ℕ
  win_rate : ℝ
  total_pnl : ℝ
  total_return_pct : ℝ
  annualized_return_pct : ℝ
  sharpe : ℝ
  sortino : ℝ
  max_drawdown_pct : ℝ
  profit_factor : ℝ
  avg_win : ℝ
  avg_loss : ℝ
  total_gas_costs : ℝ
  gas_pct_of_pnl : ℝ
  final_capital : ℝ

/-- `_calculate_metrics` (lines 304-369): `none` models the empty dict
`{}` returned when the trade list is empty; otherwise the populated
metrics map.  `capital` is the engine's final capital field. -/
noncomputable def calculate_metrics (cfg : BacktestConfig) (trades : List Trade)
    (history : List PortfolioSnapshot) (capital : ℚ) : Option Metrics :=
  if trades = [] then none
  else
    let total_trades := trades.length
    let winning_trades := (trades.filter (fun t => t.pnl > 0)).length
    let losing_trades := (trades.filter (fun t => t.pnl < 0)).length
    let win_rate : ℚ :=
      if total_trades > 0 then (winning_trades : ℚ) / total_trades else 0
    let total_pnl := (trades.map (fun t => t.pnl)).sum
    let total_return_pct := total_pnl / cfg.starting_capital * 100
    let annualized_return : ℝ :=
      match history with
      | [] => 0
      | h0 :: rest =>
        let days : ℤ := ((h0 :: rest).getLast (by simp)).timestamp - h0.timestamp
        if days > 0 then
          (((capital / cfg.starting_capital : ℚ) : ℝ) ^
            ((365 : ℝ) / ((max days 1 : ℤ) : ℝ)) - 1) * 100
        else 0
    let returns := trades.map (fun t => t.pnl_pct)
    let sharpe_value := calculate_sharpe returns (4/100)
    let sortino_value := calculate_sortino returns (4/100)
    let max_drawdown := calculate_max_drawdown history
    let avg_win : ℚ :=
      if winning_trades > 0 then
        ((trades.filter (fun t => t.pnl > 0)).map (fun t => t.pnl)).sum /
          winning_trades
      else 0
    let avg_loss : ℚ :=
      if losing_trades > 0 then
        ((trades.filter (fun t => t.pnl < 0)).map (fun t => t.pnl)).sum /
          losing_trades
      else 0
    let profit_factor : ℚ :=
      if losing_trades > 0 ∧ avg_loss ≠ 0 then
        |avg_win * winning_trades / (avg_loss * losing_trades)|
      else 0
    let total_gas := (trades.map (fun t => t.gas_cost)).sum
    let gas_pct_of_pnl : ℚ :=
      if total_pnl ≠ 0 then total_gas / |total_pnl| * 100 else 0
    some
      { total_trades := total_trades
        winning_trades := winning_trades
        losing_trades := losing_trades
        win_rate := round2 ((win_rate : ℝ) * 100)
        total_pnl := round2 ((total_pnl : ℚ) : ℝ)
        total_return_pct := round2 ((total_return_pct : ℚ) : ℝ)
        annualized_return_pct := round2 annualized_return
        sharpe := round2 sharpe_value
        sortino := round2 sortino_value
        max_drawdown_pct := round2 (((max_drawdown : ℚ) : ℝ) * 100)
        profit_factor := round2 ((profit_factor : ℚ) : ℝ)
        avg_win := round2 ((avg_win : ℚ) : ℝ)
        avg_loss := round2 ((avg_loss : ℚ) : ℝ)
        total_gas_costs := round2 ((total_gas : ℚ) : ℝ)
        gas_pct_of_pnl := round2 ((gas_pct_of_pnl : ℚ) : ℝ)
        final_capital := round2 ((capital : ℚ) : ℝ) }

theorem sum_sq_zero (m : ℚ) : ∀ (l : List ℚ),
    ((l.map (fun x => (x - m)^2)).sum = 0) → ∀ x ∈ l, x = m := by
  intro l
  induction l with
  | nil => intro h x hx; exact absurd hx (List.not_mem_nil x)
  | cons y ys ih =>
    intro h x hx
    rw [List.map_cons, List.sum_cons] at h
    have h1 : (0:ℚ) ≤ (y - m)^2 := sq_nonneg _
    have h2 : (0:ℚ) ≤ (ys.map (fun x => (x - m)^2)).sum := by
      apply List.sum_nonneg
      intro a ha
      obtain ⟨b, hb, rfl⟩ := List.mem_map.mp ha
      exact sq_nonneg _
    have hy : (y - m)^2 = 0 := le_antisymm (by linarith) h1
    have hys : (ys.map (fun x => (x - m)^2)).sum = 0 := le_antisymm (by linarith) h2
    rcases List.mem_cons.mp hx with rfl | hx'
    · exact sub_eq_zero.mp ((pow_eq_zero_iff (two_ne_zero)).mp hy)
    · exact ih hys x hx'

theorem variance_zero_all_eq {l : List ℚ} (hl : l ≠ [])
    (h : listVariance l = 0) : ∀ x ∈ l, x = listMean l := by
  unfold listVariance at h
  have hn : ((l.length : ℚ)) ≠ 0 :=
    Nat.cast_ne_zero.mpr (List.length_pos.mpr hl).ne'
  rw [div_eq_zero_iff] at h
  rcases h with h | h
  · exact sum_sq_zero _ l h
  · exact absurd h hn

theorem listVariance_of_all_eq (l : List ℚ) (c : ℚ) (h : ∀ x ∈ l, x = c) :
    listVariance l = 0 := by
  rcases eq_or_ne l [] with rfl | hl
  · simp [listVariance, listMean]
  · have hn : ((l.length : ℚ)) ≠ 0 :=
      Nat.cast_ne_zero.mpr (List.length_pos.mpr hl).ne'
    have hmean : listMean l = c := by
      unfold listMean
      rw [List.sum_eq_card_nsmul l c h, nsmul_eq_mul]
      field_simp
    unfold listVariance
    rw [hmean]
    have hzero : (l.map (fun x => (x - c)^2)).sum = 0 := by
      apply List.sum_eq_zero
      intro a ha
      obtain ⟨b, hb, rfl⟩ := List.mem_map.mp ha
      rw [h b hb]
      ring
    rw [hzero, zero_div]

theorem listStd_of_all_eq (l : List ℚ) (c : ℚ) (h : ∀ x ∈ l, x = c) :
    listStd l = 0 := by
  unfold listStd
  rw [listVariance_of_all_eq l c h]
  simp

theorem calculate_sharpe_zero (returns : List ℚ) (rfr : ℚ)
    (h : listVariance returns = 0) : calculate_sharpe returns rfr = 0 := by
  simp only [calculate_sharpe]
  split_ifs with h1 h2
  · rfl
  · exfalso
    unfold listStd at h2
    rw [h] at h2
    simp at h2
  · rfl

theorem calculate_sortino_zero (returns : List ℚ) (rfr : ℚ)
    (h : listVariance returns = 0) : calculate_sortino returns rfr = 0 := by
  rcases eq_or_ne returns [] with rfl | hl
  · simp [calculate_sortino]
  · have hall := variance_zero_all_eq hl h
    simp only [calculate_sortino]
    rw [if_neg hl]
    have hd : (if ((returns.map (fun r => r - rfr / 252)).filter
          (fun x => x < 0)).length > 0
        then listStd ((returns.map (fun r => r - rfr / 252)).filter
          (fun x => x < 0))
        else 0) = (0:ℝ) := by
      split
      · apply listStd_of_all_eq _ (listMean returns - rfr / 252)
        intro x hx
        have hx1 : x ∈ returns.map (fun r => r - rfr / 252) :=
          (List.mem_filter.mp hx).1
        obtain ⟨r, hr, rfl⟩ := List.mem_map.mp hx1
        rw [hall r hr]
      · rfl
    rw [hd]
    simp

/-- C8 counterexample: on an empty trade list `_calculate_metrics` does
NOT return a populated metrics map with zero/neutral field values — at a
concrete input there is no `Metrics` record it returns at all; the result
is the empty dict `{}` (modelled `none`), so indexing any metric field of
the result would fail. -/
theorem metrics_empty_counterexample :
    ¬ ∃ m : Metrics, calculate_metrics defaultConfig [] [] 50000 = some m := by
  rintro ⟨m, hm⟩
  have hn : calculate_metrics defaultConfig [] [] 50000 = none := rfl
  rw [hn] at hm
  exact Option.noConfusion hm

/-- C8 (amended): on an empty trade list `_calculate_metrics` returns the
EMPTY metrics map (the Python `{}` of line 307, modelled `none`) — a
well-defined neutral value and not an exception or fault, but a map with
no fields at all rather than a metrics map carrying zero-valued fields. -/
theorem metrics_empty_neutral (cfg : BacktestConfig)
    (history : List PortfolioSnapshot) (capital : ℚ) :
    calculate_metrics cfg [] history capital = none := by
  rfl

/-- C9: Sharpe and Sortino are exactly 0 for an empty series, a
single-element series, or a zero-variance series; Sortino is also 0
whenever there are no negative excess returns. -/
theorem sharpe_sortino_guarded (returns : List ℚ) (risk_free_rate : ℚ) :
    ((returns = [] ∨ returns.length = 1 ∨ listVariance returns = 0) →
      calculate_sharpe returns risk_free_rate = 0 ∧
      calculate_sortino returns risk_free_rate = 0) ∧
    ((returns.map (fun r => r - risk_free_rate / 252)).filter
        (fun x => x < 0) = [] →
      calculate_sortino returns risk_free_rate = 0) := by
  constructor
  · intro h
    have hv : returns = [] ∨ listVariance returns = 0 := by
      rcases h with h | h | h
      · exact Or.inl h
      · obtain ⟨x, rfl⟩ := List.length_eq_one.mp h
        exact Or.inr (listVariance_of_all_eq [x] x (by simp))
      · exact Or.inr h
    rcases hv with rfl | hv
    · constructor <;> simp [calculate_sharpe, calculate_sortino]
    · exact ⟨calculate_sharpe_zero _ _ hv, calculate_sortino_zero _ _ hv⟩
  · intro h
    rcases eq_or_ne returns [] with rfl | hl
    · simp [calculate_sortino]
    · simp only [calculate_sortino]
      rw [if_neg hl, h]
      simp

/-- Witness for C9: a single-element series gives Sharpe = Sortino = 0,
and a series with no negative excess returns gives Sortino = 0. -/
theorem sharpe_sortino_guarded_witness :
    (calculate_sharpe [5] (4/100) = 0 ∧ calculate_sortino [5] (4/100) = 0) ∧
    calculate_sortino [1] 0 = 0 := by
  refine ⟨(sharpe_sortino_guarded [5] (4/100)).1 (Or.inr (Or.inl rfl)),
    (sharpe_sortino_guarded [1] 0).2 ?_⟩
  norm_num

/-- The §8 end-to-end market row at t = 1: the market resolves "yes". -/
def exampleRow1 : MarketRow :=
  { timestamp := 1
    market_id := "m1"
    yes_price := 99/100
    no_price := 1/100
    liquidity := 5000
    resolution := some "yes" }

/-- C4 failing input: the spec's end-to-end scenario (starting capital
50000, kelly_fraction 0.5, slippage 2%, gas 0.15; one signal at t = 0 with
fair_value 0.6, entry_price 0.5, liquidity 5000; market resolves "yes" at
t = 1).  The code produces NO trade: `_calculate_kelly` returns 0 (its
numerator cancels identically because odds are derived as `1/fair_value`),
so the notional is 0 < $100 and `_enter_position` declines; the run ends
with an empty trade list and final capital exactly 50000, not the one
trade with fill 0.51 / exit 0.98 that the claim describes. -/
theorem end_to_end_scenario_yields_no_trade :
    (run_backtest defaultConfig [exampleRow0, exampleRow1]
      [exampleSignal] none none).trades = [] ∧
    (run_backtest defaultConfig [exampleRow0, exampleRow1]
      [exampleSignal] none none).capital = 50000 := by
  have hd := foldl_simStep_degenerate defaultConfig
    (filterMarket [exampleRow0, exampleRow1] none none)
    (filterSignals [exampleSignal] none none)
    (sortedUniqueTimestamps (filterMarket [exampleRow0, exampleRow1] none none))
    (initState defaultConfig) rfl
  constructor
  · simp only [run_backtest]
    exact hd.2.2
  · simp only [run_backtest]
    rw [hd.2.1]
    rfl
